import Mathlib

/-!
Verification of the question selection engine of the ai-question-paper-generator
repository: criteria parsing (src/selection_engine/criteria_parser.py),
filtering (src/selection_engine/filter_manager.py), relevance scoring
(src/ai_model/relevance_scorer.py), final and diverse selection
(src/selection_engine/question_selector.py) and unit/marks based allocation
(src/enhanced_features.py).

Modelling conventions, shared by all definitions below:
* Python str values are Lean String values; str.strip, str.lower and the
  substring operator are embedded below as pyStrip, pyLower, pyIn.
* Python floats are modelled by exact rationals; all numeric constants in the
  source are decimal and map to exact rationals.
* A question dict is modelled as a record whose fields are the results of the
  defaulted lookups the code performs (q.get with a default); a missing
  unit/topic/subject entry is modelled by the empty string, which is also the
  Python-falsy case the code tests for.
* Values that are dynamically a str or a list of str are modelled by
  PyStrOrList; an AttributeError raised on such a value is modelled with
  Except.
* The sklearn TF-IDF path of _calculate_text_similarity is an external
  library call; the similarity function is therefore a parameter
  (textSimilarity) of the scorer, and the regular-expression engine used by
  filter_by_text_content is likewise a pair of oracle parameters.
* random.sample is a parameter (sample); theorems assume only that on a pool
  of at least n elements it returns exactly n elements.
-/

namespace QPGen

/-- Python str.strip: remove whitespace from both ends of a string. -/
def pyStrip (s : String) : String :=
  ⟨(s.data.dropWhile Char.isWhitespace).rdropWhile Char.isWhitespace⟩

/-- Python str.lower: lower-case every character of a string. -/
def pyLower (s : String) : String :=
  ⟨s.data.map Char.toLower⟩

/-- Does the first character list occur at the head of the second one. -/
def charsAtHead : List Char → List Char → Bool
  | [], _ => true
  | _ :: _, [] => false
  | a :: as, b :: bs => a = b && charsAtHead as bs

/-- Does the first character list occur inside the second one. -/
def charsInside (needle : List Char) : List Char → Bool
  | [] => charsAtHead needle []
  | b :: bs => charsAtHead needle (b :: bs) || charsInside needle bs

/-- Python substring test: needle in hay. -/
def pyIn (needle hay : String) : Bool :=
  charsInside needle.data hay.data

/-- A Python value that is dynamically either a str or a list of str
(criteria fields can arrive in either shape). -/
inductive PyStrOrList where
  | str : String → PyStrOrList
  | list : List String → PyStrOrList
deriving DecidableEq, Repr

/-- A Python runtime error; attributeError m models an AttributeError whose
message mentions the missing attribute m. -/
inductive PyError where
  | attributeError : String → PyError
deriving DecidableEq, Repr

/-- The AttributeError raised by calling .lower() on a list value. -/
def lowerAttributeError : PyError := .attributeError "lower"

instance : DecidableEq (Except PyError ℚ) := fun a b =>
  match a, b with
  | .ok x, .ok y => decidable_of_iff (x = y) (by simp)
  | .error x, .error y => decidable_of_iff (x = y) (by simp)
  | .ok _, .error _ => isFalse (by simp)
  | .error _, .ok _ => isFalse (by simp)

/-- Helper of pySplit: walk the characters keeping the reversed current
chunk. -/
def pySplitAux (p : Char → Bool) : List Char → List Char → List String
  | [], acc => [⟨acc.reverse⟩]
  | c :: cs, acc =>
    if p c then ⟨acc.reverse⟩ :: pySplitAux p cs []
    else pySplitAux p cs (c :: acc)

/-- Python str.split with a one-character-class separator (str.split on a
comma, and re.split on the comma-semicolon class): cut the string at every
separator character, keeping empty chunks, one more chunk than separators. -/
def pySplit (p : Char → Bool) (s : String) : List String :=
  pySplitAux p s.data []

/-- A loaded question record. Fields are the values of the defaulted dict
lookups performed by the code: question.get of question, topic, difficulty,
type, keywords, unit, subject default to empty, and marks is the integer
int(question.get of marks, default 2) - per the data model every loaded
record carries an integer marks value. The source key type is spelled qtype
because type is reserved in Lean. -/
structure Question where
  id : Nat
  question : String
  topic : String
  difficulty : String
  qtype : String
  keywords : List String
  marks : Int
  unit : String
  subject : String
deriving DecidableEq, Repr

/- ------------------------------------------------------------------
CriteriaParser (src/selection_engine/criteria_parser.py)
------------------------------------------------------------------ -/

/-- CriteriaParser.valid_difficulties. -/
def valid_difficulties : List String := ["easy", "medium", "hard", "expert"]

/-- CriteriaParser.valid_types. -/
def valid_types : List String :=
  ["text", "multiple_choice", "true_false", "essay", "numeric", "code"]

/-- CriteriaParser._parse_topic: split a string on commas (a list is used
as-is), strip each term, drop empty terms. No lower-casing happens here. -/
def parse_topic : PyStrOrList → List String
  | .str topic => ((pySplit (fun c => c = ',') topic).map pyStrip).filter (fun t => t ≠ "")
  | .list l => (l.map pyStrip).filter (fun t => t ≠ "")

/-- Validation loop shared by _parse_difficulty: keep the terms found in
valid_difficulties, default to the singleton medium when none survives. -/
def validate_difficulties (ds : List String) : List String :=
  let valid := ds.filter (fun d => valid_difficulties.contains d)
  if valid = [] then ["medium"] else valid

/-- CriteriaParser._parse_difficulty: split on commas (list used as-is),
strip and lower-case each term, then validate against the fixed enum. -/
def parse_difficulty : PyStrOrList → List String
  | .str s => validate_difficulties ((pySplit (fun c => c = ',') s).map (fun d => pyLower (pyStrip d)))
  | .list l => validate_difficulties (l.map (fun d => pyLower (pyStrip d)))

/-- Validation loop of _parse_type: keep terms found in valid_types, default
to the singleton text when none survives. -/
def validate_types (ts : List String) : List String :=
  let valid := ts.filter (fun t => valid_types.contains t)
  if valid = [] then ["text"] else valid

/-- CriteriaParser._parse_type: split on commas (list used as-is), strip and
lower-case each term, then validate against the fixed enum. -/
def parse_type : PyStrOrList → List String
  | .str s => validate_types ((pySplit (fun c => c = ',') s).map (fun t => pyLower (pyStrip t)))
  | .list l => validate_types (l.map (fun t => pyLower (pyStrip t)))

/-- CriteriaParser._parse_keywords: split a string on commas or semicolons
(re.split on the class comma-semicolon; a list is used as-is), strip each
term, drop empty terms. No lower-casing happens here. -/
def parse_keywords : PyStrOrList → List String
  | .str s => ((pySplit (fun c => c = ',' || c = ';') s).map pyStrip).filter (fun k => k ≠ "")
  | .list l => (l.map pyStrip).filter (fun k => k ≠ "")

/- ------------------------------------------------------------------
RelevanceScorer (src/ai_model/relevance_scorer.py)
------------------------------------------------------------------ -/

/-- The criteria mapping as read by RelevanceScorer: the fields it consults,
each optional (absent key) and possibly empty (Python-falsy). The difficulty
field keeps its dynamic str-or-list shape because the scorer calls .lower()
on it directly; the parser always produces a list there. -/
structure ScoreCriteria where
  topic : Option (List String)
  keywords : Option (List String)
  difficulty : Option PyStrOrList
  qtype : Option (List String)
  reference_text : Option String
deriving DecidableEq, Repr

/-- Python truthiness of an optional list value: present and non-empty. -/
def truthyList : Option (List String) → Bool
  | none => false
  | some l => !l.isEmpty

/-- Python truthiness of an optional str-or-list value. -/
def truthyStrOrList : Option PyStrOrList → Bool
  | none => false
  | some (.str s) => !s.isEmpty
  | some (.list l) => !l.isEmpty

/-- Python truthiness of an optional string value. -/
def truthyStr : Option String → Bool
  | none => false
  | some s => !s.isEmpty

/-- RelevanceScorer._calculate_topic_relevance: 1.0 on exact membership of
the lower-cased question topic in the lower-cased targets, 0.7 on a
bidirectional substring match, otherwise the maximum text similarity over
the targets (0.0 when there are no targets). textSimilarity is the
TF-IDF-or-Jaccard oracle of _calculate_text_similarity. -/
def calculate_topic_relevance (textSimilarity : String → String → ℚ)
    (q : Question) (targetTopics : List String) : ℚ :=
  let questionTopic := pyLower q.topic
  let targets := targetTopics.map pyLower
  if targets.contains questionTopic then 1
  else if targets.any (fun t => pyIn t questionTopic || pyIn questionTopic t) then 7/10
  else
    match targets.map (fun t => textSimilarity questionTopic t) with
    | [] => 0
    | s :: ss => ss.foldl max s

/-- RelevanceScorer._calculate_keyword_relevance: the fraction of the
lower-cased target keywords occurring as substrings of the lower-cased
question text joined with the raw question keywords. -/
def calculate_keyword_relevance (q : Question) (targetKeywords : List String) : ℚ :=
  let questionText := pyLower q.question
  let targets := targetKeywords.map pyLower
  let allQuestionText := questionText ++ " " ++ String.intercalate " " q.keywords
  let matched := (targets.filter (fun k => pyIn k allQuestionText)).length
  if targets.length = 0 then 0 else (matched : ℚ) / targets.length

/-- The difficulty_levels mapping of _calculate_difficulty_match with its
.get default of 2. -/
def difficulty_level (d : String) : Int :=
  if d = "easy" then 1
  else if d = "medium" then 2
  else if d = "hard" then 3
  else if d = "expert" then 4
  else 2

/-- RelevanceScorer._calculate_difficulty_match. The code calls .lower() on
the raw criteria difficulty value; on a list value (the shape the criteria
parser always produces) this raises AttributeError, modelled as the error
case. On a string value: 1.0 when empty or equal, otherwise
max 0 (1 - 0.3 * level difference) on the ordinal scale. -/
def calculate_difficulty_match (q : Question) (target : PyStrOrList) : Except PyError ℚ :=
  match target with
  | .list _ => .error lowerAttributeError
  | .str s =>
    let questionDifficulty := pyLower q.difficulty
    let targetDifficulty := pyLower s
    if targetDifficulty = "" then .ok 1
    else if questionDifficulty = targetDifficulty then .ok 1
    else
      let qLevel := difficulty_level questionDifficulty
      let tLevel := difficulty_level targetDifficulty
      let diff := (qLevel - tLevel).natAbs
      .ok (max 0 (1 - (diff : ℚ) * (3/10)))

/-- RelevanceScorer._calculate_type_match: 1.0 when the target list is empty
or contains the lower-cased question type, else 0.0. -/
def calculate_type_match (q : Question) (targetTypes : List String) : ℚ :=
  let questionType := pyLower q.qtype
  let targets := targetTypes.map pyLower
  if targets = [] then 1
  else if targets.contains questionType then 1 else 0

/-- RelevanceScorer._calculate_semantic_similarity: 0.5 on an empty
reference text, else the text similarity of question text and reference. -/
def calculate_semantic_similarity (textSimilarity : String → String → ℚ)
    (q : Question) (referenceText : String) : ℚ :=
  if referenceText = "" then 1/2
  else textSimilarity q.question referenceText

/-- RelevanceScorer._calculate_relevance_score: each sub-score is computed
only when its criterion is truthy and is appended to the scores list already
multiplied by its weight (0.3, 0.25, 0.2, 0.15, 0.1); the result is
sum(scores) / len(scores), or the neutral 0.5 when no criterion was given.
A difficulty criterion in list shape propagates the AttributeError. -/
def calculate_relevance_score (textSimilarity : String → String → ℚ)
    (q : Question) (c : ScoreCriteria) : Except PyError ℚ := do
  let scores : List ℚ := []
  let scores := if truthyList c.topic then
      scores ++ [calculate_topic_relevance textSimilarity q (c.topic.getD []) * (3/10)]
    else scores
  let scores := if truthyList c.keywords then
      scores ++ [calculate_keyword_relevance q (c.keywords.getD []) * (1/4)]
    else scores
  let scores ← if truthyStrOrList c.difficulty then do
      let d ← calculate_difficulty_match q (c.difficulty.getD (.str ""))
      pure (scores ++ [d * (1/5)])
    else pure scores
  let scores := if truthyList c.qtype then
      scores ++ [calculate_type_match q (c.qtype.getD []) * (3/20)]
    else scores
  let scores := if truthyStr c.reference_text then
      scores ++ [calculate_semantic_similarity textSimilarity q (c.reference_text.getD "") * (1/10)]
    else scores
  if scores = [] then pure (1/2)
  else pure (scores.sum / (scores.length : ℚ))

/- ------------------------------------------------------------------
FilterManager (src/selection_engine/filter_manager.py)
------------------------------------------------------------------ -/

/-- The parsed criteria fields consulted by FilterManager.apply_filters.
An absent key and a present-but-falsy value are skipped identically by the
code, so both are modelled by the empty list, empty string or zero. -/
structure FilterCriteria where
  topic : List String
  difficulty : List String
  qtype : List String
  keywords : List String
  text_contains : String
  exclude_keywords : List String
  min_length : Nat
  max_length : Nat
deriving DecidableEq, Repr

/-- FilterManager.filter_by_topic: keep questions whose lower-cased topic
contains, or is contained in, some lower-cased target topic. -/
def filter_by_topic (questions : List Question) (topics : List String) : List Question :=
  let topics := topics.map pyLower
  questions.filter (fun q =>
    topics.any (fun t => pyIn t (pyLower q.topic) || pyIn (pyLower q.topic) t))

/-- FilterManager.filter_by_difficulty: keep questions whose lower-cased
difficulty is a member of the lower-cased target list. -/
def filter_by_difficulty (questions : List Question) (difficulties : List String) : List Question :=
  let difficulties := difficulties.map pyLower
  questions.filter (fun q => difficulties.contains (pyLower q.difficulty))

/-- FilterManager.filter_by_type: keep questions whose lower-cased type is a
member of the lower-cased target list. -/
def filter_by_type (questions : List Question) (types : List String) : List Question :=
  let types := types.map pyLower
  questions.filter (fun q => types.contains (pyLower q.qtype))

/-- FilterManager.filter_by_keywords: keep questions for which some target
keyword occurs in the lower-cased text or in some lower-cased question
keyword (the source appends on the first match and breaks, which is exactly
a filter by the any-predicate). -/
def filter_by_keywords (questions : List Question) (keywords : List String) : List Question :=
  let keywords := keywords.map pyLower
  questions.filter (fun q =>
    keywords.any (fun k =>
      pyIn k (pyLower q.question) || (q.keywords.map pyLower).any (fun qk => pyIn k qk)))

/-- FilterManager.filter_by_text_content: when the pattern compiles
(regexValid), keep questions whose text the compiled case-insensitive
pattern matches (regexSearch); on re.error fall back to a lower-cased
substring test. The regex engine is external, hence the two oracles. -/
def filter_by_text_content (regexValid : String → Bool) (regexSearch : String → String → Bool)
    (questions : List Question) (textPattern : String) : List Question :=
  if regexValid textPattern then
    questions.filter (fun q => regexSearch textPattern q.question)
  else
    questions.filter (fun q => pyIn (pyLower textPattern) (pyLower q.question))

/-- FilterManager.filter_exclude_keywords: drop questions for which some
excluded keyword occurs in the lower-cased text or some lower-cased question
keyword. -/
def filter_exclude_keywords (questions : List Question) (excludeKeywords : List String) : List Question :=
  let excludeKeywords := excludeKeywords.map pyLower
  questions.filter (fun q =>
    !(excludeKeywords.any (fun k =>
      pyIn k (pyLower q.question) || (q.keywords.map pyLower).any (fun qk => pyIn k qk))))

/-- FilterManager.filter_by_min_length. -/
def filter_by_min_length (questions : List Question) (minLength : Nat) : List Question :=
  questions.filter (fun q => minLength ≤ q.question.length)

/-- FilterManager.filter_by_max_length. -/
def filter_by_max_length (questions : List Question) (maxLength : Nat) : List Question :=
  questions.filter (fun q => q.question.length ≤ maxLength)

/-- FilterManager.apply_filters on a freshly constructed manager (the
custom_filters registry is empty): the eight built-in filters applied in the
fixed source order, each gated by the truthiness of its criteria field. -/
def apply_filters (regexValid : String → Bool) (regexSearch : String → String → Bool)
    (questions : List Question) (criteria : FilterCriteria) : List Question :=
  let f := questions
  let f := if criteria.topic.isEmpty then f else filter_by_topic f criteria.topic
  let f := if criteria.difficulty.isEmpty then f else filter_by_difficulty f criteria.difficulty
  let f := if criteria.qtype.isEmpty then f else filter_by_type f criteria.qtype
  let f := if criteria.keywords.isEmpty then f else filter_by_keywords f criteria.keywords
  let f := if criteria.text_contains.isEmpty then f
    else filter_by_text_content regexValid regexSearch f criteria.text_contains
  let f := if criteria.exclude_keywords.isEmpty then f
    else filter_exclude_keywords f criteria.exclude_keywords
  let f := if criteria.min_length = 0 then f else filter_by_min_length f criteria.min_length
  let f := if criteria.max_length = 0 then f else filter_by_max_length f criteria.max_length
  f

/- ------------------------------------------------------------------
QuestionSelector (src/selection_engine/question_selector.py)
------------------------------------------------------------------ -/

/-- A question dict after score_questions attached its relevance_score key;
the fields the final selection step reads. -/
structure ScoredQuestion where
  id : Nat
  topic : String
  difficulty : String
  qtype : String
  relevance_score : ℚ
deriving DecidableEq, Repr

/-- QuestionSelector.diversity_factor. -/
def diversity_factor : ℚ := 3/10

/-- QuestionSelector._calculate_diversity_bonus: the mean of the three
inverse incremented attribute counts. The three defaultdict counters are
modelled as total functions with default 0. -/
def calculate_diversity_bonus (q : ScoredQuestion)
    (topicCounts difficultyCounts typeCounts : String → Nat) : ℚ :=
  let topicBonus : ℚ := 1 / ((topicCounts q.topic : ℚ) + 1)
  let difficultyBonus : ℚ := 1 / ((difficultyCounts q.difficulty : ℚ) + 1)
  let typeBonus : ℚ := 1 / ((typeCounts q.qtype : ℚ) + 1)
  (topicBonus + difficultyBonus + typeBonus) / 3

/-- The combined score of the greedy loop body of _diverse_selection:
relevance times (1 - diversity_factor) plus diversity bonus times
diversity_factor. -/
def combined_score (q : ScoredQuestion)
    (topicCounts difficultyCounts typeCounts : String → Nat) : ℚ :=
  q.relevance_score * (1 - diversity_factor) +
    calculate_diversity_bonus q topicCounts difficultyCounts typeCounts * diversity_factor

/-- The inner for-loop of _diverse_selection: fold over the remaining
candidates keeping the best question and best score, starting from
(None, -1) and replacing on a strictly greater combined score. -/
def pick_best (remaining : List ScoredQuestion)
    (topicCounts difficultyCounts typeCounts : String → Nat) :
    Option ScoredQuestion × ℚ :=
  remaining.foldl
    (fun acc q =>
      if acc.2 < combined_score q topicCounts difficultyCounts typeCounts then
        (some q, combined_score q topicCounts difficultyCounts typeCounts)
      else acc)
    (none, -1)

/-- Increment one key of a counter function (the defaultdict += 1 update). -/
def bump (f : String → Nat) (k : String) : String → Nat :=
  fun x => if x = k then f x + 1 else f x

/-- The while-loop of _diverse_selection. Question dicts are non-empty, so
the Python truthiness test on best_question is a None test, modelled by
Option.elim. When no candidate has combined score above the running -1
start the Python loop never progresses and never terminates; that case is
modelled as none. The fuel argument is the initial remaining length, enough
for every terminating run since each selection removes one candidate
(list.remove drops the first equal element, embedded as List.erase); an
exhausted fuel is also modelled as none and is proved unreachable. -/
def diverse_selection_go (target : Nat) :
    Nat → List ScoredQuestion → List ScoredQuestion →
    (String → Nat) → (String → Nat) → (String → Nat) → Option (List ScoredQuestion)
  | 0, selected, remaining, _, _, _ =>
    if selected.length < target ∧ remaining ≠ [] then none
    else some selected
  | fuel + 1, selected, remaining, tc, dc, yc =>
    if selected.length < target ∧ remaining ≠ [] then
      (pick_best remaining tc dc yc).1.elim none (fun best =>
        diverse_selection_go target fuel (selected ++ [best]) (remaining.erase best)
          (bump tc best.topic) (bump dc best.difficulty) (bump yc best.qtype))
    else some selected

/-- QuestionSelector._diverse_selection. -/
def diverse_selection (scoredQuestions : List ScoredQuestion) (targetCount : Nat) :
    Option (List ScoredQuestion) :=
  diverse_selection_go targetCount scoredQuestions.length [] scoredQuestions
    (fun _ => 0) (fun _ => 0) (fun _ => 0)

/-- The stable descending sort of _select_final_set: Python list.sort with
key relevance_score and reverse True is a stable sort by the
greater-or-equal-relevance relation. -/
def sort_by_relevance (scoredQuestions : List ScoredQuestion) : List ScoredQuestion :=
  scoredQuestions.mergeSort (fun a b => decide (b.relevance_score ≤ a.relevance_score))

/-- QuestionSelector._select_final_set: return the pool unchanged when it
already fits the target count, otherwise sort by relevance descending and
either take the top target count (diversity disabled) or run the greedy
diverse selection. -/
def select_final_set (scoredQuestions : List ScoredQuestion)
    (targetCount : Nat) (diversity : Bool) : Option (List ScoredQuestion) :=
  if scoredQuestions.length ≤ targetCount then some scoredQuestions
  else
    let sorted := sort_by_relevance scoredQuestions
    if diversity then diverse_selection sorted targetCount
    else some (sorted.take targetCount)

/-- Modelled from the spec: the greedy step as the spec words it, the first
remaining candidate attaining the maximal combined score (used as the
reference point of the refinement theorem for the diverse selection). -/
def first_argmax (remaining : List ScoredQuestion)
    (tc dc yc : String → Nat) : Option ScoredQuestion :=
  remaining.find? (fun q =>
    remaining.all (fun x => decide (combined_score x tc dc yc ≤ combined_score q tc dc yc)))

/-- Modelled from the spec: the greedy diverse selection defined with the
first-argmax step, the reference the code is proved equal to. -/
def greedy_selection_go (target : Nat) :
    Nat → List ScoredQuestion → List ScoredQuestion →
    (String → Nat) → (String → Nat) → (String → Nat) → Option (List ScoredQuestion)
  | 0, selected, remaining, _, _, _ =>
    if selected.length < target ∧ remaining ≠ [] then none
    else some selected
  | fuel + 1, selected, remaining, tc, dc, yc =>
    if selected.length < target ∧ remaining ≠ [] then
      (first_argmax remaining tc dc yc).elim none (fun best =>
        greedy_selection_go target fuel (selected ++ [best]) (remaining.erase best)
          (bump tc best.topic) (bump dc best.difficulty) (bump yc best.qtype))
    else some selected

/-- Modelled from the spec: greedy diverse selection by repeated first
argmax. -/
def greedy_selection (scoredQuestions : List ScoredQuestion) (targetCount : Nat) :
    Option (List ScoredQuestion) :=
  greedy_selection_go targetCount scoredQuestions.length [] scoredQuestions
    (fun _ => 0) (fun _ => 0) (fun _ => 0)

/- ------------------------------------------------------------------
EnhancedQuestionSelector (src/enhanced_features.py)
------------------------------------------------------------------ -/

/-- The unit of a question as read by select_questions_by_units_and_marks:
question.get unit or question.get topic or question.get subject, where the
or-chain skips Python-falsy values (missing or empty strings). -/
def question_unit (q : Question) : String :=
  if q.unit ≠ "" then q.unit
  else if q.topic ≠ "" then q.topic
  else q.subject

/-- The unit-restriction loop of select_questions_by_units_and_marks: keep
questions whose (truthy) fallback unit is a member of the selected units. -/
def unit_questions (questions : List Question) (selectedUnits : List String) : List Question :=
  questions.filter (fun q => question_unit q ≠ "" && selectedUnits.contains (question_unit q))

/-- EnhancedQuestionSelector._calculate_optimal_distribution. Integer
division is Python floor division. The returned dict has string keys 2 and
16 in insertion order; it is modelled as the association list of its items
with the keys as integers. -/
def calculate_optimal_distribution (totalMarks : Int) : List (Int × Nat) :=
  if totalMarks ≤ 50 then
    let twoMarkCount := min (Int.fdiv totalMarks 2) 20
    let remainingMarks := totalMarks - twoMarkCount * 2
    let sixteenMarkCount := max 0 (Int.fdiv remainingMarks 16)
    [(2, (max 1 twoMarkCount).toNat), (16, (max 0 sixteenMarkCount).toNat)]
  else if totalMarks ≤ 100 then
    let sixteenMarkCount := min (Int.fdiv totalMarks 20) 4
    let remainingMarks := totalMarks - sixteenMarkCount * 16
    let twoMarkCount := Int.fdiv remainingMarks 2
    [(2, (max 1 twoMarkCount).toNat), (16, (max 0 sixteenMarkCount).toNat)]
  else
    let sixteenMarkCount := min (Int.fdiv totalMarks 16) 6
    let remainingMarks := totalMarks - sixteenMarkCount * 16
    let twoMarkCount := Int.fdiv remainingMarks 2
    [(2, (max 1 twoMarkCount).toNat), (16, (max 0 sixteenMarkCount).toNat)]

/-- The questions_by_marks bucket of one marks value: the restricted-pool
questions with exactly that marks value (a key is present in the dict the
code builds exactly when this list is non-empty). -/
def marks_bucket (unitQs : List Question) (m : Int) : List Question :=
  unitQs.filter (fun q => q.marks = m)

/-- The accumulator of the selection loop of
select_questions_by_units_and_marks: selected questions, achieved marks and
the selection summary. Summary keys are the marks values; the code decorates
them into strings with a constant _marks suffix, a bijective decoration
dropped by the model. -/
structure AllocState where
  selected : List Question
  actual : Int
  summary : List (Int × Nat)
deriving DecidableEq, Repr

/-- The draw of one bucket: required_count questions via random.sample when
enough are available, else all available (the shortfall case, a warning in
the source). -/
def draw (sample : List Question → Nat → List Question)
    (available : List Question) (required : Nat) : List Question :=
  if required ≤ available.length then sample available required else available

/-- One iteration of the for-loop over the distribution items: skip a marks
value with an empty bucket; otherwise draw, and extend the selected list,
the achieved marks and the summary. -/
def alloc_step (sample : List Question → Nat → List Question)
    (unitQs : List Question) (st : AllocState) (e : Int × Nat) : AllocState :=
  let available := marks_bucket unitQs e.1
  if available = [] then st
  else
    let selected := draw sample available e.2
    ⟨st.selected ++ selected, st.actual + e.1 * selected.length,
      st.summary ++ [(e.1, selected.length)]⟩

/-- The result dict of select_questions_by_units_and_marks. -/
structure SelectionResult where
  questions : List Question
  total_marks : Int
  distribution : List (Int × Nat)
  choice_options : Nat
  units_covered : List String
deriving DecidableEq, Repr

/-- EnhancedQuestionSelector.select_questions_by_units_and_marks: restrict
the pool to the selected units, raise ValueError (the error case, the
NoCandidatesError of the spec) when the restriction is empty, choose the
distribution (falsy argument means the computed heuristic), run the
per-marks-value selection loop, and derive choice_options as 2 exactly when
a sixteen-marks question was drawn. -/
def select_questions_by_units_and_marks (sample : List Question → Nat → List Question)
    (questions : List Question) (selectedUnits : List String) (totalMarks : Int)
    (marksDistribution : Option (List (Int × Nat))) : Except String SelectionResult :=
  let unitQs := unit_questions questions selectedUnits
  if unitQs = [] then .error "No questions found for the selected units"
  else
    let dist := match marksDistribution with
      | none => calculate_optimal_distribution totalMarks
      | some d => if d = [] then calculate_optimal_distribution totalMarks else d
    let st := dist.foldl (alloc_step sample unitQs) ⟨[], 0, []⟩
    let sixteenMarkCount := (st.summary.lookup 16).getD 0
    .ok ⟨st.selected, st.actual, st.summary,
      if 0 < sixteenMarkCount then 2 else 0, selectedUnits⟩

/- ------------------------------------------------------------------
Concrete inputs used by counterexamples and witnesses
------------------------------------------------------------------ -/

/-- A question on topic math (counterexample input for the scoring claim). -/
def qMath : Question := ⟨0, "what is two plus two", "math", "medium", "text", [], 2, "", ""⟩

/-- An easy question (failing input for the difficulty scoring claim). -/
def qEasy : Question := ⟨1, "what is two plus two", "math", "easy", "text", [], 2, "", ""⟩

/-- Scenario B pool: fifteen two-marks and fifteen sixteen-marks questions,
all in unit U1. -/
def scenarioPool : List Question :=
  (List.range 15).map (fun i => ⟨i, "", "", "", "", [], 2, "U1", ""⟩) ++
    (List.range 15).map (fun i => ⟨15 + i, "", "", "", "", [], 16, "U1", ""⟩)

/-- The deterministic sample function used by witnesses: take the first n. -/
def takeSample (l : List Question) (n : Nat) : List Question := l.take n

/-- The deterministic scored-question sample analogue is not needed; witness
pools for the selector claims. -/
def sqA : ScoredQuestion := ⟨0, "algebra", "easy", "text", 9/10⟩

/-- Second witness scored question, different topic and lower relevance. -/
def sqB : ScoredQuestion := ⟨1, "geometry", "hard", "essay", 1/2⟩

/-- Third witness scored question, topic equal to the first. -/
def sqC : ScoredQuestion := ⟨2, "algebra", "medium", "text", 7/10⟩

/- ------------------------------------------------------------------
Theorems
------------------------------------------------------------------ -/

theorem dropWhile_rdropWhile_fix (p : Char → Bool) (w : List Char)
    (hw : w.dropWhile p = w) : (w.rdropWhile p).dropWhile p = w.rdropWhile p := by
  rcases hX : w.rdropWhile p with _ | ⟨a, t⟩
  · simp
  · have hpre : ∃ u, w.rdropWhile p ++ u = w := List.rdropWhile_prefix p w
    obtain ⟨u, hu⟩ := hpre
    rw [hX] at hu
    have hpa : ¬ p a := by
      intro hpa
      rw [← hu] at hw
      simp only [List.cons_append, List.dropWhile_cons, hpa, if_true] at hw
      have := congrArg List.length hw
      have hle : (List.dropWhile p (t ++ u)).length ≤ (t ++ u).length :=
        (List.dropWhile_sublist p).length_le
      simp [List.length_append] at this hle
      omega
    simp [List.dropWhile_cons, hpa]

theorem pyStrip_idem (s : String) : pyStrip (pyStrip s) = pyStrip s := by
  show (⟨(((s.data.dropWhile Char.isWhitespace).rdropWhile Char.isWhitespace).dropWhile
      Char.isWhitespace).rdropWhile Char.isWhitespace⟩ : String) = _
  rw [dropWhile_rdropWhile_fix Char.isWhitespace _ (List.dropWhile_idempotent _ _),
    List.rdropWhile_idempotent]
  rfl

theorem mem_map_pyStrip_filter {l : List String} {t : String}
    (h : t ∈ (l.map pyStrip).filter (fun x => x ≠ "")) : pyStrip t = t ∧ t ≠ "" := by
  rw [List.mem_filter] at h
  obtain ⟨hm, hne⟩ := h
  obtain ⟨s, _, rfl⟩ := List.mem_map.mp hm
  exact ⟨pyStrip_idem s, by simpa using hne⟩

theorem mem_validate_difficulties {ds : List String} {d : String}
    (h : d ∈ validate_difficulties ds) : pyLower (pyStrip d) = d := by
  have hall : ∀ x ∈ ("medium" :: valid_difficulties), pyLower (pyStrip x) = x := by decide
  simp only [validate_difficulties] at h
  split at h
  · apply hall; simp at h; simp [h]
  · rw [List.mem_filter] at h
    apply hall
    have := h.2
    simp [valid_difficulties] at this ⊢
    tauto

theorem mem_validate_types {ts : List String} {t : String}
    (h : t ∈ validate_types ts) : pyLower (pyStrip t) = t := by
  have hall : ∀ x ∈ ("text" :: valid_types), pyLower (pyStrip x) = x := by decide
  simp only [validate_types] at h
  split at h
  · apply hall; simp at h; simp [h]
  · rw [List.mem_filter] at h
    apply hall
    have := h.2
    simp [valid_types] at this ⊢
    tauto

/-- C8 counterexample: the canonical topic list for the raw string MATH
keeps the term MATH, which differs from its lower-cased trimmed form, so the
normalizer does not lower-case topic terms. -/
theorem C8_counterexample :
    "MATH" ∈ parse_topic (.str "MATH") ∧ pyLower (pyStrip "MATH") ≠ "MATH" := by
  decide

/-- C8 (amended): for every raw topic, difficulty, type and keyword field
(string split on commas, or commas and semicolons for keywords; list used
as-is), every difficulty and type term of the canonical criteria equals its
lower-cased whitespace-trimmed form, while every topic and keyword term
equals its whitespace-trimmed form and is non-empty but keeps its case. -/
theorem C8_normalizer_terms (x : PyStrOrList) :
    (∀ t ∈ parse_topic x, pyStrip t = t ∧ t ≠ "") ∧
    (∀ k ∈ parse_keywords x, pyStrip k = k ∧ k ≠ "") ∧
    (∀ d ∈ parse_difficulty x, pyLower (pyStrip d) = d) ∧
    (∀ y ∈ parse_type x, pyLower (pyStrip y) = y) := by
  refine ⟨?_, ?_, ?_, ?_⟩
  · intro t ht
    cases x <;> exact mem_map_pyStrip_filter ht
  · intro k hk
    cases x <;> exact mem_map_pyStrip_filter hk
  · intro d hd
    cases x <;> exact mem_validate_difficulties hd
  · intro y hy
    cases x <;> exact mem_validate_types hy

theorem C8_normalizer_terms_witness :
    pyStrip "easy" = "easy" ∧ "easy" ≠ "" :=
  (C8_normalizer_terms (.str " easy ")).1 "easy" (by decide)

/-- C1 counterexample: for the question qMath and the criteria containing
only the topic field math, the topic sub-score is 1.0 (exact match) but the
returned relevance score is 0.3, not the topic sub-score itself: the scores
list holds the weighted values, so the mean over one entry keeps the 0.3
weight. -/
theorem C1_relevance_counterexample :
    calculate_topic_relevance (fun _ _ => 0) qMath ["math"] = 1 ∧
    calculate_relevance_score (fun _ _ => 0) qMath ⟨some ["math"], none, none, none, none⟩ =
      .ok (3/10) ∧ (3/10 : ℚ) ≠ 1 := by
  refine ⟨by decide, ?_, by norm_num⟩
  have ht : calculate_topic_relevance (fun _ _ => 0) qMath ["math"] = 1 := by decide
  simp [calculate_relevance_score, truthyList, truthyStrOrList, truthyStr, ht]
  show Except.ok _ = Except.ok ((3 : ℚ)/10)
  norm_num

/-- C1 (amended): the relevance score is the mean of the weighted sub-scores
actually computed (each sub-score is appended multiplied by its weight); in
particular, for criteria containing only a topic field the returned score
equals 0.3 times the topic sub-score, 0.3 on an exact match. -/
theorem C1_topic_only_weighted (textSimilarity : String → String → ℚ)
    (q : Question) (topics : List String) (h : topics ≠ []) :
    calculate_relevance_score textSimilarity q ⟨some topics, none, none, none, none⟩ =
      .ok (calculate_topic_relevance textSimilarity q topics * (3/10)) := by
  have hne : topics.isEmpty = false := by
    cases topics
    · exact absurd rfl h
    · rfl
  simp [calculate_relevance_score, truthyList, truthyStrOrList, truthyStr, hne]
  rfl

theorem C1_topic_only_weighted_witness :
    calculate_relevance_score (fun _ _ => 0) qMath ⟨some ["math"], none, none, none, none⟩ =
      .ok (calculate_topic_relevance (fun _ _ => 0) qMath ["math"] * (3/10)) :=
  C1_topic_only_weighted (fun _ _ => 0) qMath ["math"] (by decide)

/-- C2: the criteria parser canonicalizes a difficulty criterion into a
non-empty list of strings, but _calculate_difficulty_match calls .lower() on
the raw criteria value, so scoring any question against a parser-produced
difficulty criterion raises AttributeError instead of returning the ordinal
score; the ordinal formula (here max 0 (1 - 0.3 times 2) = 0.4 for easy
against hard) is only reachable on a plain-string criteria value. -/
theorem C2_difficulty_scoring_raises :
    parse_difficulty (.str "easy") = ["easy"] ∧
    calculate_difficulty_match qEasy (.list ["easy"]) = .error lowerAttributeError ∧
    calculate_relevance_score (fun _ _ => 0) qEasy
      ⟨none, none, some (.list ["easy"]), none, none⟩ = .error lowerAttributeError ∧
    calculate_difficulty_match qEasy (.str "hard") = .ok (2/5) := by
  refine ⟨by decide, rfl, rfl, ?_⟩
  have h1 : pyLower qEasy.difficulty = "easy" := by decide
  have h2 : pyLower "hard" = "hard" := by decide
  simp only [calculate_difficulty_match, h1, h2]
  rw [if_neg (by decide : ¬("hard" = "")), if_neg (by decide : ¬("easy" = "hard"))]
  have h3 : (difficulty_level "easy" - difficulty_level "hard").natAbs = 2 := by decide
  rw [h3]
  norm_num

/-- C3: select_questions_by_units_and_marks raises (the ValueError the spec
names NoCandidatesError) exactly when the unit-restricted pool - the
questions whose fallback unit is truthy and a member of the selected units -
is empty; in particular an empty unit list always raises. -/
theorem C3_raises_iff_empty_restriction (sample : List Question → Nat → List Question)
    (qs : List Question) (units : List String) (tm : Int)
    (d : Option (List (Int × Nat))) :
    ((∃ e, select_questions_by_units_and_marks sample qs units tm d = .error e) ↔
      unit_questions qs units = []) ∧
    (units = [] →
      ∃ e, select_questions_by_units_and_marks sample qs units tm d = .error e) := by
  constructor
  · by_cases h : unit_questions qs units = [] <;>
      simp [select_questions_by_units_and_marks, h]
  · intro hu
    subst hu
    have h : unit_questions qs [] = [] := by
      simp [unit_questions]
    simp [select_questions_by_units_and_marks, h]

theorem C3_raises_witness :
    ∃ e, select_questions_by_units_and_marks takeSample [qMath] [] 50 none = .error e :=
  (C3_raises_iff_empty_restriction takeSample [qMath] [] 50 none).2 rfl

theorem takeSample_length (l : List Question) (n : Nat) (h : n ≤ l.length) :
    (takeSample l n).length = n := by
  simp [takeSample]
  omega

theorem draw_length (sample : List Question → Nat → List Question)
    (hs : ∀ l n, n ≤ l.length → (sample l n).length = n)
    (available : List Question) (required : Nat) :
    (draw sample available required).length = min required available.length := by
  unfold draw
  split
  · rw [hs _ _ (by assumption)]
    exact (Nat.min_eq_left (by assumption)).symm
  · exact (Nat.min_eq_right (by omega)).symm

theorem alloc_foldl_spec (sample : List Question → Nat → List Question)
    (hs : ∀ l n, n ≤ l.length → (sample l n).length = n) (unitQs : List Question) :
    ∀ (dist : List (Int × Nat)) (st : AllocState),
      (dist.foldl (alloc_step sample unitQs) st).actual =
        st.actual + (dist.map (fun e =>
          e.1 * (min e.2 (marks_bucket unitQs e.1).length : Int))).sum ∧
      (dist.foldl (alloc_step sample unitQs) st).selected.length =
        st.selected.length + (dist.map (fun e =>
          min e.2 (marks_bucket unitQs e.1).length)).sum ∧
      (dist.foldl (alloc_step sample unitQs) st).summary =
        st.summary ++ (dist.filter (fun e => !(marks_bucket unitQs e.1).isEmpty)).map
          (fun e => (e.1, min e.2 (marks_bucket unitQs e.1).length)) := by
  intro dist
  induction dist with
  | nil => intro st; simp
  | cons e rest ih =>
    intro st
    obtain ⟨ih1, ih2, ih3⟩ := ih (alloc_step sample unitQs st e)
    by_cases hb : marks_bucket unitQs e.1 = []
    · have hst : alloc_step sample unitQs st e = st := by
        simp [alloc_step, hb]
      rw [hst] at ih1 ih2 ih3
      refine ⟨?_, ?_, ?_⟩
      · rw [List.foldl_cons, hst, ih1]
        simp [hb]
      · rw [List.foldl_cons, hst, ih2]
        simp [hb]
      · rw [List.foldl_cons, hst, ih3]
        simp [hb]
    · have hdl : (draw sample (marks_bucket unitQs e.1) e.2).length =
          min e.2 (marks_bucket unitQs e.1).length := draw_length sample hs _ _
      have hst : alloc_step sample unitQs st e =
          ⟨st.selected ++ draw sample (marks_bucket unitQs e.1) e.2,
            st.actual + e.1 * (draw sample (marks_bucket unitQs e.1) e.2).length,
            st.summary ++ [(e.1, (draw sample (marks_bucket unitQs e.1) e.2).length)]⟩ := by
        simp [alloc_step, hb]
      rw [hst] at ih1 ih2 ih3
      refine ⟨?_, ?_, ?_⟩
      · rw [List.foldl_cons, hst, ih1, hdl]
        simp only [List.map_cons, List.sum_cons]
        push_cast
        ring
      · rw [List.foldl_cons, hst, ih2, hdl]
        simp only [List.map_cons, List.sum_cons, List.length_append]
        omega
      · rw [List.foldl_cons, hst, ih3, hdl]
        have hfe : (marks_bucket unitQs e.1).isEmpty = false := by
          cases h : marks_bucket unitQs e.1
          · exact absurd h hb
          · rfl
        simp [List.filter_cons, hfe]

/-- C4: for every distribution, when select_questions_by_units_and_marks
succeeds its total_marks is the sum over the distribution entries of
mark-value times the drawn count, where the drawn count is required_count
when the bucket holds at least that many candidates and the whole bucket
otherwise (min of the two); moreover a non-empty unit-restricted pool never
raises, shortfalls included. -/
theorem C4_total_marks_sum (sample : List Question → Nat → List Question)
    (qs : List Question) (units : List String) (tm : Int)
    (dist : List (Int × Nat)) (hd : dist ≠ [])
    (hs : ∀ l n, n ≤ l.length → (sample l n).length = n) :
    (∀ r, select_questions_by_units_and_marks sample qs units tm (some dist) = .ok r →
      r.total_marks = (dist.map (fun e =>
        e.1 * (min e.2 (marks_bucket (unit_questions qs units) e.1).length : Int))).sum) ∧
    (unit_questions qs units ≠ [] →
      ∃ r, select_questions_by_units_and_marks sample qs units tm (some dist) = .ok r) := by
  by_cases hU : unit_questions qs units = []
  · constructor
    · intro r hr
      simp [select_questions_by_units_and_marks, hU] at hr
    · intro h
      exact absurd hU h
  · constructor
    · intro r hr
      simp only [select_questions_by_units_and_marks] at hr
      rw [if_neg hU] at hr
      simp only [if_neg hd] at hr
      rw [Except.ok.injEq] at hr
      subst hr
      have := (alloc_foldl_spec sample hs (unit_questions qs units) dist ⟨[], 0, []⟩).1
      simpa using this
    · intro _
      have hok : select_questions_by_units_and_marks sample qs units tm (some dist) =
          .ok ⟨(dist.foldl (alloc_step sample (unit_questions qs units)) ⟨[], 0, []⟩).selected,
            (dist.foldl (alloc_step sample (unit_questions qs units)) ⟨[], 0, []⟩).actual,
            (dist.foldl (alloc_step sample (unit_questions qs units)) ⟨[], 0, []⟩).summary,
            if 0 < ((dist.foldl (alloc_step sample (unit_questions qs units))
                ⟨[], 0, []⟩).summary.lookup 16).getD 0 then 2 else 0,
            units⟩ := by
        simp only [select_questions_by_units_and_marks]
        rw [if_neg hU]
        simp only [if_neg hd]
      exact ⟨_, hok⟩

theorem C4_total_marks_sum_witness :
    ∃ r, select_questions_by_units_and_marks takeSample scenarioPool ["U1"] 100
        (some [(2, 1)]) = .ok r ∧ r.total_marks = 2 := by
  obtain ⟨hfor, hex⟩ := C4_total_marks_sum takeSample scenarioPool ["U1"] 100 [(2, 1)]
    (by decide) takeSample_length
  obtain ⟨r, hr⟩ := hex (by decide)
  refine ⟨r, hr, ?_⟩
  rw [hfor r hr]
  decide

theorem lookup_append_single_none {st : List (Int × Nat)} {m k : Int} {v : Nat}
    (h : st.lookup m = none) (hk : m ≠ k) : (st ++ [(k, v)]).lookup m = none := by
  induction st with
  | nil =>
    have hbeq : (m == k) = false := by
      simpa using hk
    simp [List.lookup, hbeq]
  | cons x xs ih =>
    rw [List.cons_append]
    cases hmx : (m == x.1)
    · simp only [List.lookup, hmx] at h ⊢
      exact ih h
    · simp only [List.lookup, hmx] at h
      exact absurd h (by simp)

theorem alloc_foldl_lookup_none (sample : List Question → Nat → List Question)
    (unitQs : List Question) (m : Int)
    (hempty : marks_bucket unitQs m = []) :
    ∀ (dist : List (Int × Nat)) (st : AllocState), st.summary.lookup m = none →
      (dist.foldl (alloc_step sample unitQs) st).summary.lookup m = none := by
  intro dist
  induction dist with
  | nil => intro st h; simpa using h
  | cons e rest ih =>
    intro st h
    rw [List.foldl_cons]
    apply ih
    by_cases hb : marks_bucket unitQs e.1 = []
    · simpa [alloc_step, hb] using h
    · have hmk : m ≠ e.1 := by
        intro hmk
        rw [hmk] at hempty
        exact hb hempty
      simp only [alloc_step, if_neg hb]
      exact lookup_append_single_none h hmk

theorem select_ok_distribution (sample : List Question → Nat → List Question)
    (qs : List Question) (units : List String) (tm : Int)
    (dist : Option (List (Int × Nat))) (r : SelectionResult)
    (hr : select_questions_by_units_and_marks sample qs units tm dist = .ok r) :
    ∃ D : List (Int × Nat), r.distribution =
      (D.foldl (alloc_step sample (unit_questions qs units)) ⟨[], 0, []⟩).summary := by
  by_cases hU : unit_questions qs units = []
  · simp [select_questions_by_units_and_marks, hU] at hr
  · simp only [select_questions_by_units_and_marks] at hr
    rw [if_neg hU] at hr
    cases dist with
    | none =>
      rw [Except.ok.injEq] at hr
      subst hr
      exact ⟨_, rfl⟩
    | some d =>
      by_cases hd0 : d = []
      · subst hd0
        simp only [if_pos rfl] at hr
        rw [Except.ok.injEq] at hr
        subst hr
        exact ⟨_, rfl⟩
      · simp only [if_neg hd0] at hr
        rw [Except.ok.injEq] at hr
        subst hr
        exact ⟨_, rfl⟩

/-- C9: a distribution entry whose marks value has an empty candidate bucket
in the unit-restricted pool is skipped entirely: removing it does not change
the selection result at all (no questions, no achieved marks), and no
successful result ever carries a summary entry for such a marks value - the
shortfall of an entirely empty bucket is absent from the summary rather than
recorded as zero. -/
theorem C9_empty_bucket_skipped (sample : List Question → Nat → List Question)
    (qs : List Question) (units : List String) (tm : Int) (m : Int) (c : Nat)
    (l₁ l₂ : List (Int × Nat))
    (hempty : marks_bucket (unit_questions qs units) m = [])
    (hne : l₁ ++ l₂ ≠ []) :
    select_questions_by_units_and_marks sample qs units tm (some (l₁ ++ (m, c) :: l₂)) =
      select_questions_by_units_and_marks sample qs units tm (some (l₁ ++ l₂)) ∧
    (∀ dist r, select_questions_by_units_and_marks sample qs units tm dist = .ok r →
      r.distribution.lookup m = none) := by
  constructor
  · by_cases hU : unit_questions qs units = []
    · simp [select_questions_by_units_and_marks, hU]
    · have hne1 : l₁ ++ (m, c) :: l₂ ≠ [] := by simp
      have hfold : ∀ st : AllocState,
          (l₁ ++ (m, c) :: l₂).foldl (alloc_step sample (unit_questions qs units)) st =
            (l₁ ++ l₂).foldl (alloc_step sample (unit_questions qs units)) st := by
        intro st
        rw [List.foldl_append, List.foldl_append, List.foldl_cons]
        congr 1
        simp [alloc_step, hempty]
      simp only [select_questions_by_units_and_marks]
      rw [if_neg hU]
      simp only [if_neg hne1, if_neg hne, hfold]
      rw [if_neg hU]
  · intro dist r hr
    obtain ⟨D, hD⟩ := select_ok_distribution sample qs units tm dist r hr
    rw [hD]
    exact alloc_foldl_lookup_none sample (unit_questions qs units) m hempty D _ (by simp)

theorem C9_empty_bucket_skipped_witness :
    select_questions_by_units_and_marks takeSample scenarioPool ["U1"] 100
        (some [(2, 3), (5, 2)]) =
      select_questions_by_units_and_marks takeSample scenarioPool ["U1"] 100
        (some [(2, 3)]) ∧
    (∀ dist r, select_questions_by_units_and_marks takeSample scenarioPool ["U1"] 100 dist =
        .ok r → r.distribution.lookup 5 = none) := by
  have h := C9_empty_bucket_skipped takeSample scenarioPool ["U1"] 100 5 2 [(2, 3)] []
    (by decide) (by decide)
  simpa using h

/-- C5, Scenario B: on a pool of fifteen 2-marks and fifteen 16-marks
questions all in the selected unit, a total-marks target of 100 with no
distribution yields the heuristic distribution of 18 two-marks and 4
sixteen-marks questions; the 2-marks bucket falls short (15 available) and
is taken whole, 4 sixteen-marks questions are drawn, and the call returns
achieved marks 94 with 19 questions without raising. -/
theorem C5_scenario_b (sample : List Question → Nat → List Question)
    (hs : ∀ l n, n ≤ l.length → (sample l n).length = n) :
    calculate_optimal_distribution 100 = [(2, 18), (16, 4)] ∧
    ∃ r, select_questions_by_units_and_marks sample scenarioPool ["U1"] 100 none = .ok r ∧
      r.total_marks = 94 ∧ r.questions.length = 19 ∧
      r.distribution = [(2, 15), (16, 4)] ∧ r.choice_options = 2 := by
  refine ⟨by decide, ?_⟩
  have hUne : ¬(unit_questions scenarioPool ["U1"] = []) := by decide
  obtain ⟨h1, h2, h3⟩ := alloc_foldl_spec sample hs (unit_questions scenarioPool ["U1"])
    (calculate_optimal_distribution 100) ⟨[], 0, []⟩
  have hok : select_questions_by_units_and_marks sample scenarioPool ["U1"] 100 none =
      .ok ⟨((calculate_optimal_distribution 100).foldl
          (alloc_step sample (unit_questions scenarioPool ["U1"])) ⟨[], 0, []⟩).selected,
        ((calculate_optimal_distribution 100).foldl
          (alloc_step sample (unit_questions scenarioPool ["U1"])) ⟨[], 0, []⟩).actual,
        ((calculate_optimal_distribution 100).foldl
          (alloc_step sample (unit_questions scenarioPool ["U1"])) ⟨[], 0, []⟩).summary,
        if 0 < (((calculate_optimal_distribution 100).foldl
            (alloc_step sample (unit_questions scenarioPool ["U1"]))
            ⟨[], 0, []⟩).summary.lookup 16).getD 0 then 2 else 0,
        ["U1"]⟩ := by
    simp only [select_questions_by_units_and_marks]
    rw [if_neg hUne]
  refine ⟨_, hok, ?_, ?_, ?_, ?_⟩
  · show ((calculate_optimal_distribution 100).foldl
        (alloc_step sample (unit_questions scenarioPool ["U1"])) ⟨[], 0, []⟩).actual = 94
    rw [h1]
    decide
  · show ((calculate_optimal_distribution 100).foldl
        (alloc_step sample (unit_questions scenarioPool ["U1"])) ⟨[], 0, []⟩).selected.length = 19
    rw [h2]
    decide
  · show ((calculate_optimal_distribution 100).foldl
        (alloc_step sample (unit_questions scenarioPool ["U1"])) ⟨[], 0, []⟩).summary =
      [(2, 15), (16, 4)]
    rw [h3]
    decide
  · show (if 0 < (((calculate_optimal_distribution 100).foldl
        (alloc_step sample (unit_questions scenarioPool ["U1"]))
        ⟨[], 0, []⟩).summary.lookup 16).getD 0 then 2 else 0) = 2
    rw [h3]
    decide

theorem C5_scenario_b_witness :
    calculate_optimal_distribution 100 = [(2, 18), (16, 4)] ∧
    ∃ r, select_questions_by_units_and_marks takeSample scenarioPool ["U1"] 100 none =
        .ok r ∧ r.total_marks = 94 ∧ r.questions.length = 19 ∧
      r.distribution = [(2, 15), (16, 4)] ∧ r.choice_options = 2 :=
  C5_scenario_b takeSample takeSample_length

theorem ite_skip_filter (P : Prop) [Decidable P] (p : Question → Bool) (l : List Question) :
    (if P then l else l.filter p) = l.filter (fun x => decide P || p x) := by
  by_cases h : P <;> simp [h]

theorem ite_filter_filter (P : Prop) [Decidable P] (p q' : Question → Bool) (l : List Question) :
    (if P then l.filter p else l.filter q') = l.filter (fun x => if P then p x else q' x) := by
  by_cases h : P <;> simp [h]

/-- C7: the filter pipeline is idempotent for every criteria and every
regular-expression oracle - applying apply_filters twice with the same
criteria equals applying it once, because every built-in filter is a pure
narrowing predicate. -/
theorem C7_apply_filters_idempotent (rv : String → Bool) (rs : String → String → Bool)
    (qs : List Question) (c : FilterCriteria) :
    apply_filters rv rs (apply_filters rv rs qs c) c = apply_filters rv rs qs c := by
  obtain ⟨p, hp⟩ : ∃ p : Question → Bool, ∀ l, apply_filters rv rs l c = l.filter p :=
    ⟨_, fun l => by
      simp only [apply_filters, filter_by_topic, filter_by_difficulty, filter_by_type,
        filter_by_keywords, filter_by_text_content, filter_exclude_keywords,
        filter_by_min_length, filter_by_max_length, ite_filter_filter, ite_skip_filter,
        List.filter_filter]
      rfl⟩
  rw [hp, hp, List.filter_filter]
  simp only [Bool.and_self]

theorem combined_score_pos (q : ScoredQuestion) (tc dc yc : String → Nat)
    (h : 0 ≤ q.relevance_score) : 0 < combined_score q tc dc yc := by
  unfold combined_score calculate_diversity_bonus diversity_factor
  have h1 : (0:ℚ) < 1 / ((tc q.topic : ℚ) + 1) := by positivity
  have h2 : (0:ℚ) < 1 / ((dc q.difficulty : ℚ) + 1) := by positivity
  have h3 : (0:ℚ) < 1 / ((yc q.qtype : ℚ) + 1) := by positivity
  have h4 : 0 ≤ q.relevance_score * (1 - 3/10) := by
    apply mul_nonneg h
    norm_num
  linarith

theorem pick_best_foldl_spec (tc dc yc : String → Nat) :
    ∀ (l : List ScoredQuestion) (a : Option ScoredQuestion × ℚ),
      (l.foldl (fun acc q => if acc.2 < combined_score q tc dc yc then
          (some q, combined_score q tc dc yc) else acc) a = a ∧
        ∀ x ∈ l, combined_score x tc dc yc ≤ a.2) ∨
      (∃ l₁ b l₂, l = l₁ ++ b :: l₂ ∧
        l.foldl (fun acc q => if acc.2 < combined_score q tc dc yc then
          (some q, combined_score q tc dc yc) else acc) a =
            (some b, combined_score b tc dc yc) ∧
        a.2 < combined_score b tc dc yc ∧
        (∀ x ∈ l₁, combined_score x tc dc yc < combined_score b tc dc yc) ∧
        (∀ x ∈ l₂, combined_score x tc dc yc ≤ combined_score b tc dc yc)) := by
  intro l
  induction l with
  | nil =>
    intro a
    left
    exact ⟨rfl, by simp⟩
  | cons y t ih =>
    intro a
    rw [List.foldl_cons]
    by_cases hy : a.2 < combined_score y tc dc yc
    · rw [if_pos hy]
      rcases ih (some y, combined_score y tc dc yc) with
        ⟨heq, hall⟩ | ⟨t₁, b, t₂, hsplit, heq, hlt, h₁, h₂⟩
      · right
        exact ⟨[], y, t, rfl, heq, hy, by simp, by simpa using hall⟩
      · right
        refine ⟨y :: t₁, b, t₂, by simp [hsplit], heq, lt_trans hy hlt, ?_, h₂⟩
        intro x hx
        rcases List.mem_cons.mp hx with rfl | hx
        · exact hlt
        · exact h₁ x hx
    · rw [if_neg hy]
      push_neg at hy
      rcases ih a with ⟨heq, hall⟩ | ⟨t₁, b, t₂, hsplit, heq, hlt, h₁, h₂⟩
      · left
        refine ⟨heq, ?_⟩
        intro x hx
        rcases List.mem_cons.mp hx with rfl | hx
        · exact hy
        · exact hall x hx
      · right
        refine ⟨y :: t₁, b, t₂, by simp [hsplit], heq, hlt, ?_, h₂⟩
        intro x hx
        rcases List.mem_cons.mp hx with rfl | hx
        · exact lt_of_le_of_lt hy hlt
        · exact h₁ x hx

theorem pick_best_eq_some (tc dc yc : String → Nat) (l : List ScoredQuestion)
    (b : ScoredQuestion) (s : ℚ) (h : pick_best l tc dc yc = (some b, s)) :
    s = combined_score b tc dc yc ∧ ∃ l₁ l₂, l = l₁ ++ b :: l₂ ∧
      (∀ x ∈ l₁, combined_score x tc dc yc < combined_score b tc dc yc) ∧
      (∀ x ∈ l₂, combined_score x tc dc yc ≤ combined_score b tc dc yc) := by
  unfold pick_best at h
  rcases pick_best_foldl_spec tc dc yc l (none, -1) with
    ⟨heq, -⟩ | ⟨l₁, b', l₂, hsplit, heq, -, h₁, h₂⟩
  · rw [heq] at h
    simp at h
  · rw [heq] at h
    rw [Prod.mk.injEq] at h
    obtain ⟨hb, hs⟩ := h
    rw [Option.some.injEq] at hb
    subst hb
    exact ⟨hs.symm, l₁, l₂, hsplit, h₁, h₂⟩

theorem pick_best_total (tc dc yc : String → Nat) (l : List ScoredQuestion)
    (hl : l ≠ []) (hpos : ∀ x ∈ l, -1 < combined_score x tc dc yc) :
    ∃ b, pick_best l tc dc yc = (some b, combined_score b tc dc yc) := by
  unfold pick_best
  rcases pick_best_foldl_spec tc dc yc l (none, -1) with
    ⟨-, hall⟩ | ⟨l₁, b, l₂, -, heq, -, -, -⟩
  · cases l with
    | nil => exact absurd rfl hl
    | cons y t =>
      have h1 := hall y (by simp)
      have h2 := hpos y (by simp)
      norm_num at h1
      linarith
  · exact ⟨b, heq⟩

theorem first_argmax_eq_pick_best (tc dc yc : String → Nat) (l : List ScoredQuestion)
    (hpos : ∀ x ∈ l, -1 < combined_score x tc dc yc) :
    first_argmax l tc dc yc = (pick_best l tc dc yc).1 := by
  rcases hp : pick_best l tc dc yc with ⟨ob, s⟩
  cases ob with
  | none =>
    have hnil : l = [] := by
      by_contra hne
      obtain ⟨b, hb⟩ := pick_best_total tc dc yc l hne hpos
      rw [hp] at hb
      simp at hb
    subst hnil
    rfl
  | some b =>
    obtain ⟨-, l₁, l₂, hsplit, h₁, h₂⟩ := pick_best_eq_some tc dc yc l b s hp
    subst hsplit
    have hbmem : b ∈ l₁ ++ b :: l₂ := by simp
    show first_argmax (l₁ ++ b :: l₂) tc dc yc = some b
    unfold first_argmax
    rw [List.find?_append]
    have hposb : ((l₁ ++ b :: l₂).all fun x =>
        decide (combined_score x tc dc yc ≤ combined_score b tc dc yc)) = true := by
      rw [List.all_eq_true]
      intro x hx
      rw [decide_eq_true_eq]
      rcases List.mem_append.mp hx with hx | hx
      · exact le_of_lt (h₁ x hx)
      · rcases List.mem_cons.mp hx with rfl | hx
        · exact le_refl _
        · exact h₂ x hx
    have hnone : l₁.find? (fun q => (l₁ ++ b :: l₂).all fun x =>
        decide (combined_score x tc dc yc ≤ combined_score q tc dc yc)) = none := by
      rw [List.find?_eq_none]
      intro x hx hfx
      rw [List.all_eq_true] at hfx
      have hxb := hfx b hbmem
      rw [decide_eq_true_eq] at hxb
      have := h₁ x hx
      linarith
    rw [hnone, Option.none_or]
    exact List.find?_cons_of_pos _ hposb

theorem diverse_go_eq_greedy (target : Nat) :
    ∀ (fuel : Nat) (selected remaining : List ScoredQuestion) (tc dc yc : String → Nat),
      (∀ x ∈ remaining, 0 ≤ x.relevance_score) →
      diverse_selection_go target fuel selected remaining tc dc yc =
        greedy_selection_go target fuel selected remaining tc dc yc := by
  intro fuel
  induction fuel with
  | zero =>
    intro sel rem tc dc yc hpos
    rfl
  | succ fuel ih =>
    intro sel rem tc dc yc hpos
    rw [diverse_selection_go, greedy_selection_go]
    by_cases hcond : sel.length < target ∧ rem ≠ []
    · rw [if_pos hcond, if_pos hcond]
      have hpos1 : ∀ x ∈ rem, -1 < combined_score x tc dc yc := by
        intro x hx
        have := combined_score_pos x tc dc yc (hpos x hx)
        linarith
      obtain ⟨b, hb⟩ := pick_best_total tc dc yc rem hcond.2 hpos1
      have hfa : first_argmax rem tc dc yc = some b := by
        rw [first_argmax_eq_pick_best tc dc yc rem hpos1, hb]
      rw [hb, hfa]
      show Option.elim (some b) none _ = Option.elim (some b) none _
      rw [Option.elim_some, Option.elim_some]
      exact ih (sel ++ [b]) (rem.erase b) (bump tc b.topic) (bump dc b.difficulty)
        (bump yc b.qtype) (fun x hx => hpos x (List.mem_of_mem_erase hx))
    · rw [if_neg hcond, if_neg hcond]

theorem diverse_go_spec (target : Nat) :
    ∀ (fuel : Nat) (remaining selected : List ScoredQuestion) (tc dc yc : String → Nat),
      remaining.length ≤ fuel →
      (∀ x ∈ remaining, 0 ≤ x.relevance_score) →
      selected.length ≤ target →
      ∃ picks, diverse_selection_go target fuel selected remaining tc dc yc =
          some (selected ++ picks) ∧
        (selected ++ picks).length = min target (selected.length + remaining.length) ∧
        (picks : Multiset ScoredQuestion) ≤ (remaining : Multiset ScoredQuestion) := by
  intro fuel
  induction fuel with
  | zero =>
    intro rem sel tc dc yc hfuel hpos hsel
    have hrem : rem = [] := List.length_eq_zero.mp (Nat.le_zero.mp hfuel)
    subst hrem
    rw [diverse_selection_go]
    rw [if_neg (by simp)]
    refine ⟨[], by simp, ?_, by simp⟩
    simp [Nat.min_eq_right hsel]
  | succ fuel ih =>
    intro rem sel tc dc yc hfuel hpos hsel
    by_cases hcond : sel.length < target ∧ rem ≠ []
    · have hpos1 : ∀ x ∈ rem, -1 < combined_score x tc dc yc := by
        intro x hx
        have := combined_score_pos x tc dc yc (hpos x hx)
        linarith
      obtain ⟨b, hb⟩ := pick_best_total tc dc yc rem hcond.2 hpos1
      have hbmem : b ∈ rem := by
        obtain ⟨-, l₁, l₂, hsplit, -, -⟩ := pick_best_eq_some tc dc yc rem b _ hb
        rw [hsplit]
        simp
      have hlenerase : (rem.erase b).length = rem.length - 1 :=
        List.length_erase_of_mem hbmem
      obtain ⟨picks, hgo, hlen, hms⟩ := ih (rem.erase b) (sel ++ [b])
        (bump tc b.topic) (bump dc b.difficulty) (bump yc b.qtype)
        (by rw [hlenerase]; omega)
        (fun x hx => hpos x (List.mem_of_mem_erase hx))
        (by simp only [List.length_append, List.length_singleton]; omega)
      refine ⟨b :: picks, ?_, ?_, ?_⟩
      · rw [diverse_selection_go, if_pos hcond, hb]
        rw [show ((some b, combined_score b tc dc yc) :
            Option ScoredQuestion × ℚ).1 = some b from rfl]
        rw [Option.elim_some, hgo]
        simp
      · have h1 : 1 ≤ rem.length := by
          cases rem
          · exact absurd rfl hcond.2
          · simp
        simp only [List.length_append, List.length_singleton] at hlen ⊢
        simp only [List.length_cons]
        rw [hlenerase] at hlen
        omega
      · have hcons : (b :: picks : Multiset ScoredQuestion) =
            b ::ₘ (picks : Multiset ScoredQuestion) :=
          (Multiset.cons_coe b picks).symm
        rw [hcons]
        have h2 : (picks : Multiset ScoredQuestion) ≤
            ((rem.erase b : List ScoredQuestion) : Multiset ScoredQuestion) := hms
        have h3 : b ::ₘ ((rem.erase b : List ScoredQuestion) : Multiset ScoredQuestion) =
            (rem : Multiset ScoredQuestion) := by
          rw [← Multiset.coe_erase]
          exact Multiset.cons_erase (by simpa using hbmem)
        calc b ::ₘ (picks : Multiset ScoredQuestion)
            ≤ b ::ₘ ((rem.erase b : List ScoredQuestion) : Multiset ScoredQuestion) :=
              Multiset.cons_le_cons b h2
          _ = (rem : Multiset ScoredQuestion) := h3
    · rw [diverse_selection_go, if_neg hcond]
      refine ⟨[], by simp, ?_, by simp⟩
      rcases Decidable.not_and_iff_or_not.mp hcond with h | h
      · push_neg at h
        have heq2 : sel.length = target := le_antisymm hsel h
        simp only [List.append_nil, heq2]
        omega
      · push_neg at h
        subst h
        simp [Nat.min_eq_right hsel]

theorem diverse_go_length_le (target : Nat) :
    ∀ (fuel : Nat) (selected remaining : List ScoredQuestion) (tc dc yc : String → Nat)
      (r : List ScoredQuestion),
      selected.length ≤ target →
      diverse_selection_go target fuel selected remaining tc dc yc = some r →
      r.length ≤ target := by
  intro fuel
  induction fuel with
  | zero =>
    intro sel rem tc dc yc r hsel hgo
    rw [diverse_selection_go] at hgo
    by_cases hcond : sel.length < target ∧ rem ≠ []
    · rw [if_pos hcond] at hgo
      simp at hgo
    · rw [if_neg hcond, Option.some.injEq] at hgo
      subst hgo
      exact hsel
  | succ fuel ih =>
    intro sel rem tc dc yc r hsel hgo
    rw [diverse_selection_go] at hgo
    by_cases hcond : sel.length < target ∧ rem ≠ []
    · rw [if_pos hcond] at hgo
      rcases hp : pick_best rem tc dc yc with ⟨ob, s⟩
      rw [hp] at hgo
      cases ob with
      | none => simp at hgo
      | some b =>
        rw [show ((some b, s) : Option ScoredQuestion × ℚ).1 = some b from rfl,
          Option.elim_some] at hgo
        exact ih (sel ++ [b]) (rem.erase b) (bump tc b.topic) (bump dc b.difficulty)
          (bump yc b.qtype) r
          (by simp only [List.length_append, List.length_singleton]; omega) hgo
    · rw [if_neg hcond, Option.some.injEq] at hgo
      subst hgo
      exact hsel

/-- C10: on a valid scored pool (pairwise distinct records as guaranteed by
the unique-id data model, scores non-negative as produced by the scorer),
diversity-enabled selection returns pairwise-distinct questions forming a
sub-multiset of the pool (each input element chosen at most once), of length
exactly min of target count and pool size, and the loop is exactly the
greedy iteration that deterministically picks the first remaining candidate
attaining the maximal combined score relevance x 0.7 + diversity bonus x
0.3. -/
theorem C10_diverse_selection_spec (sqs : List ScoredQuestion) (target : Nat)
    (hnd : sqs.Nodup) (hpos : ∀ q ∈ sqs, 0 ≤ q.relevance_score) :
    ∃ r, diverse_selection sqs target = some r ∧ r.Nodup ∧
      (r : Multiset ScoredQuestion) ≤ (sqs : Multiset ScoredQuestion) ∧
      r.length = min target sqs.length ∧
      diverse_selection sqs target = greedy_selection sqs target := by
  obtain ⟨picks, hgo, hlen, hms⟩ := diverse_go_spec target sqs.length sqs []
    (fun _ => 0) (fun _ => 0) (fun _ => 0) le_rfl hpos (by simp)
  refine ⟨picks, by simpa [diverse_selection] using hgo, ?_, hms, by simpa using hlen, ?_⟩
  · rw [← Multiset.coe_nodup]
    exact Multiset.nodup_of_le hms (by rw [Multiset.coe_nodup]; exact hnd)
  · unfold diverse_selection greedy_selection
    exact diverse_go_eq_greedy target sqs.length [] sqs _ _ _ hpos

theorem C10_diverse_selection_spec_witness :
    ∃ r, diverse_selection [sqA, sqB, sqC] 2 = some r ∧ r.Nodup ∧
      (r : Multiset ScoredQuestion) ≤ ([sqA, sqB, sqC] : Multiset ScoredQuestion) ∧
      r.length = min 2 ([sqA, sqB, sqC] : List ScoredQuestion).length ∧
      diverse_selection [sqA, sqB, sqC] 2 = greedy_selection [sqA, sqB, sqC] 2 :=
  C10_diverse_selection_spec [sqA, sqB, sqC] 2
    (by simp [sqA, sqB, sqC])
    (by
      intro q hq
      simp only [List.mem_cons, List.not_mem_nil, or_false] at hq
      rcases hq with rfl | rfl | rfl <;> norm_num [sqA, sqB, sqC])

/-- C6: the final selection step returns at most the target count of
questions for every diversity setting; with diversity disabled it returns
exactly min of target count and pool size questions, namely the target
count highest-relevance candidates under the stable descending relevance
sort (when the pool exceeds the target; otherwise the whole pool, a
permutation of that top slice). -/
theorem C6_count_invariant (sqs : List ScoredQuestion) (n : Nat) :
    (∀ (d : Bool) (r : List ScoredQuestion),
      select_final_set sqs n d = some r → r.length ≤ n) ∧
    (∃ r, select_final_set sqs n false = some r ∧
      r.length = min n sqs.length ∧
      r.Perm ((sort_by_relevance sqs).take (min n sqs.length)) ∧
      (n < sqs.length → r = (sort_by_relevance sqs).take n)) := by
  constructor
  · intro d r hr
    unfold select_final_set at hr
    by_cases hle : sqs.length ≤ n
    · rw [if_pos hle, Option.some.injEq] at hr
      subst hr
      exact hle
    · rw [if_neg hle] at hr
      cases d with
      | true =>
        simp only [if_pos rfl] at hr
        exact diverse_go_length_le n (sort_by_relevance sqs).length []
          (sort_by_relevance sqs) (fun _ => 0) (fun _ => 0) (fun _ => 0) r
          (by simp) hr
      | false =>
        rw [if_neg (by simp : ¬(false = true)), Option.some.injEq] at hr
        subst hr
        simp only [List.length_take]
        omega
  · by_cases hle : sqs.length ≤ n
    · have hperm : (sort_by_relevance sqs).Perm sqs := List.mergeSort_perm sqs _
      have hlen2 : (sort_by_relevance sqs).length = sqs.length := hperm.length_eq
      refine ⟨sqs, ?_, ?_, ?_, ?_⟩
      · unfold select_final_set
        rw [if_pos hle]
      · rw [Nat.min_eq_right hle]
      · rw [Nat.min_eq_right hle, ← hlen2, List.take_length]
        exact hperm.symm
      · intro hlt
        omega
    · push_neg at hle
      have hperm : (sort_by_relevance sqs).Perm sqs := List.mergeSort_perm sqs _
      have hlen2 : (sort_by_relevance sqs).length = sqs.length := hperm.length_eq
      refine ⟨(sort_by_relevance sqs).take n, ?_, ?_, ?_, fun _ => rfl⟩
      · unfold select_final_set
        rw [if_neg (by omega)]
        rw [if_neg (by simp : ¬(false = true))]
      · rw [List.length_take, hlen2]
      · rw [Nat.min_eq_left (le_of_lt hle)]

theorem C6_count_invariant_witness :
    ∃ r, select_final_set [sqA, sqB, sqC] 2 false = some r ∧ r.length = 2 ∧ r.length ≤ 2 := by
  obtain ⟨h1, r, hr, hlen, -, -⟩ := C6_count_invariant [sqA, sqB, sqC] 2
  exact ⟨r, hr, by rw [hlen]; rfl, h1 false r hr⟩

end QPGen
